import Mathlib

/-!
# Verification of the ad-image composition pipeline

A shallow embedding, in Lean 4, of the core pipeline of the repository
(`app/pipeline/plan.py`, `app/pipeline/background.py`,
`app/pipeline/upscale.py`, `app/services/copy_service.py`,
`app/services/layout_service.py`, `app/services/render_service.py`),
together with theorems settling the specification claims about it.

Modelling conventions:
* Python `str` is Lean `String` (sequences of Unicode code points, so
  `len`, slicing and `in` agree with Python's code-point semantics).
  Python's `str.lower` / `\d` / `\s` are modelled on their ASCII part
  (every string constant appearing in the sources is ASCII or Korean,
  and Korean is unaffected by lowering).
* Python floats are modelled by exact arithmetic: every arithmetic
  expression that the sources feed to `int(...)` is a ratio of
  non-negative integers, and `int` of a non-negative value is `⌊·⌋`,
  so those expressions are modelled directly with natural-number
  division.  Float literals such as `1.2` are modelled by the exact
  rationals they denote in the source text.
* `random.sample(colors, 2)` on a two-element list returns the two
  elements in an order chosen by the global RNG; the RNG outcome is
  made an explicit boolean parameter of the embedding.
* Fallible Python code (raising `ValueError` etc.) returns `Except`
  or `Option`.
-/

/-! ## Python string primitives -/

/-- ASCII part of Python `str.lower` (the source's string constants are
ASCII or Korean; Korean code points are fixed by `lower`). -/
def lowerChar (c : Char) : Char :=
  if 'A' ≤ c ∧ c ≤ 'Z' then Char.ofNat (c.toNat + 32) else c

/-- Python `s.lower()`. -/
def pyLower (s : String) : String := ⟨s.data.map lowerChar⟩

/-- Python whitespace (`str.strip` default set / regex `\s`, ASCII part). -/
def isWs (c : Char) : Bool :=
  c = ' ' || c = '\t' || c = '\n' || c = '\r' || c = '\x0b' || c = '\x0c'

/-- Python `s.strip()` on the underlying character list. -/
def stripList (l : List Char) : List Char :=
  ((l.dropWhile isWs).reverse.dropWhile isWs).reverse

/-- Python `s.strip()`. -/
def pyStrip (s : String) : String := ⟨stripList s.data⟩

/-- Character-list prefix test (Boolean). -/
def isPrefB : List Char → List Char → Bool
  | [], _ => true
  | _ :: _, [] => false
  | a :: as, b :: bs => a = b && isPrefB as bs

/-- Python's substring operator `pat in s` on character lists. -/
def isSubB (pat : List Char) : List Char → Bool
  | [] => isPrefB pat []
  | c :: tl => isPrefB pat (c :: tl) || isSubB pat tl

/-- Python `", ".join(parts)`. -/
def joinComma : List String → String
  | [] => ""
  | [s] => s
  | s :: t :: rest => s ++ ", " ++ joinComma (t :: rest)

/-- Python `s[:n]`. -/
def pyTake (s : String) (n : ℕ) : String := ⟨s.data.take n⟩

/-! ## `app/pipeline/plan.py` — data model -/

/-- The three UI tones; `casual`/`premium`/`emotional` stand for the
source's Korean literals 캐주얼/고급/감성. -/
inductive Tone where
  | casual
  | premium
  | emotional
deriving DecidableEq, Repr

structure CopySpec where
  headline : String
  subcopy : String
  cta : String
deriving DecidableEq, Repr

/-- `scale` is the source's float, as an exact rational. -/
structure EmphasisSpec where
  text : String
  color_hex : String
  scale : ℚ
deriving DecidableEq, Repr

/-- The source's `1.15` default emphasis scale. -/
def defaultEmphScale : ℚ := 23 / 20

/-- The source's `1.2` discount emphasis scale. -/
def discountEmphScale : ℚ := 6 / 5

/-- Layout fields are runtime strings in Python (`Literal` is not
enforced); validity w.r.t. the declared enums is a proved property. -/
structure TextBlockLayout where
  position : String
  font_style : String
  font_size : String
  color_hex : String
  emphasis : Option EmphasisSpec
deriving DecidableEq, Repr

structure LayoutSpec where
  headline : TextBlockLayout
  subcopy : TextBlockLayout
  cta : TextBlockLayout
deriving DecidableEq, Repr

structure ModelHints where
  lora_key : Option String
  control_hint : Option String
  ip_adapter_ref : Option String
deriving DecidableEq, Repr

structure Plan where
  copy : CopySpec
  background_prompt : String
  layout : LayoutSpec
  model_hints : ModelHints
deriving DecidableEq, Repr

/-- Typed errors of the embedded pipeline (`ValueError` /
`NotImplementedError` sites in the sources). -/
inductive PipeErr where
  | invalidInput
  | floatParse
  | forbiddenToken (tok : String)
  | backendUnsupported (name : String)
deriving DecidableEq, Repr

/-! ## `plan.py` — rule-based builders -/

/-- `_build_copy_rule`.  `discount` is the already-normalised optional
discount (`build_plan` strips it and maps empty to `None`). -/
def build_copy_rule (product : String) (tone : Tone) (discount : Option String) :
    CopySpec :=
  let headline :=
    match discount with
    | some d => "오늘만 " ++ d
    | none => product ++ " 지금 만나보세요"
  match tone with
  | .premium =>
      ⟨headline, product ++ "의 깊은 매력을 프리미엄 무드로.", "지금 예약하기"⟩
  | .emotional =>
      ⟨headline, "따뜻한 순간, " ++ product ++ "와 함께.", "지금 확인하기"⟩
  | .casual =>
      ⟨headline, "가볍게 즐기는 " ++ product ++ ", 오늘도 부담 없이!", "바로 보기"⟩

/-- The blacklist of `_strip_text_like_tokens`. -/
def hintBlacklist : List String :=
  ["text", "logo", "watermark", "문구", "글자", "텍스트", "로고"]

/-- `_strip_text_like_tokens`. -/
def strip_text_like_tokens (s : String) : String :=
  if hintBlacklist.any (fun b => isSubB (pyLower b).data (pyLower s).data) then ""
  else pyStrip s

/-- The fixed leading token block of `_build_background_prompt_rule`. -/
def bgBaseTokens : List String :=
  ["high quality background for advertisement",
   "instagram-friendly composition",
   "soft depth of field",
   "clean scene",
   "no text",
   "no logo",
   "no watermark"]

/-- The tone-specific token block of `_build_background_prompt_rule`. -/
def bgToneTokens : Tone → List String
  | .premium =>
      ["luxury cafe mood", "premium interior", "warm but elegant lighting",
       "wood texture"]
  | .emotional =>
      ["warm cozy cafe mood", "soft warm lighting", "wooden table",
       "gentle bokeh"]
  | .casual =>
      ["bright friendly cafe mood", "natural lighting", "wooden table",
       "simple clean"]

/-- `_build_background_prompt_rule`. -/
def build_background_prompt_rule (product : String) (tone : Tone)
    (extra : Option String) : String :=
  let base := bgBaseTokens ++ bgToneTokens tone ++ ["fits well with " ++ product]
  let base :=
    match extra with
    | some e =>
        let safe := strip_text_like_tokens e
        if safe = "" then base else base ++ [safe]
    | none => base
  joinComma base

/-! ## `plan.py` — the percent/number phrase regex

`re.search(r"(\d+\s?%|\d+\s?퍼센트)", text)`: at each position, from left
to right, try the first alternative with a greedy optional whitespace,
then the second.  Backtracking `\d+` below its maximal run never helps
(the continuation can start neither with a digit nor absorb one), so the
maximal-munch formulation below matches Python's leftmost search. -/

def prcList : List Char := "퍼센트".data

/-- Attempted regex match anchored at the head of `cs`. -/
def matchPercentAt (cs : List Char) : Option (List Char) :=
  let ds := cs.takeWhile Char.isDigit
  if ds = [] then none
  else
    match cs.drop ds.length with
    | [] => none
    | c :: tl =>
      if isWs c && tl.head? == some '%' then some (ds ++ [c, '%'])
      else if c = '%' then some (ds ++ ['%'])
      else if isWs c && isPrefB prcList tl then some (ds ++ c :: prcList)
      else if isPrefB prcList (c :: tl) then some (ds ++ prcList)
      else none

/-- Leftmost regex search over `cs`. -/
def searchPercent : List Char → Option (List Char)
  | [] => none
  | c :: tl =>
    match matchPercentAt (c :: tl) with
    | some m => some m
    | none => searchPercent tl

/-- `_extract_percent_or_number_phrase`: leftmost match, with
`.replace(" ", "")` applied (only the ASCII space is removed). -/
def extract_percent_or_number_phrase (text : String) : Option String :=
  (searchPercent text.data).map (fun m => ⟨m.filter (fun c => c != ' ')⟩)

/-- `_build_layout_rule`. -/
def build_layout_rule (tone : Tone) (discount : Option String)
    (headline : String) : LayoutSpec :=
  let emphasis :=
    match discount with
    | some _ =>
        match extract_percent_or_number_phrase headline with
        | some target => some (⟨target, "#FF4D4D", discountEmphScale⟩ : EmphasisSpec)
        | none => none
    | none => none
  { headline :=
      ⟨"upper_center", "bold", if tone ≠ .premium then "xl" else "lg",
       "#FFFFFF", emphasis⟩
    subcopy := ⟨"lower_center", "regular", "md", "#FFFFFF", none⟩
    cta := ⟨"lower_center", "bold", "md", "#FFFFFF", none⟩ }

/-! ## `plan.py` — LLM-JSON merge -/

/-- Python values reachable inside an `llm_json` dictionary. -/
inductive JVal where
  | jnull
  | jbool (b : Bool)
  | jnum (q : ℚ)
  | jstr (s : String)
  | jlist (xs : List JVal)
  | jdict (entries : List (String × JVal))

/-- Python truthiness of a `JVal`. -/
def pyTruthy : JVal → Bool
  | .jnull => false
  | .jbool b => b
  | .jnum q => q ≠ 0
  | .jstr s => s ≠ ""
  | .jlist xs => !xs.isEmpty
  | .jdict l => !l.isEmpty

/-- `dict.get`: first binding of the key (Python keys are unique). -/
def dictGet (l : List (String × JVal)) (k : String) : Option JVal :=
  (l.find? (fun p => p.1 == k)).map (·.2)

/-- Python `str(v)`.  Faithful on strings/booleans/`None`; the reprs of
numbers and composites are abbreviated (no claim inspects them). -/
def pyStr : JVal → String
  | .jstr s => s
  | .jbool b => if b then "True" else "False"
  | .jnull => "None"
  | .jnum q => toString q.num
  | .jlist _ => "[...]"
  | .jdict _ => "{...}"

/-- Python `float(v)`: `None`/composites are a `TypeError`; strings are
parsed as optionally-signed decimal literals. -/
def pyFloat : JVal → Option ℚ
  | .jnum q => some q
  | .jbool b => some (if b then 1 else 0)
  | .jnull => none
  | .jlist _ => none
  | .jdict _ => none
  | .jstr s => parseDec (stripList s.data)
where
  /-- `float(str)` on `[sign] digits [. digits]` (scientific forms of
  CPython are not needed by any claim). -/
  parseDec (l : List Char) : Option ℚ :=
    let (sign, l) :=
      match l with
      | '-' :: tl => ((-1 : ℚ), tl)
      | '+' :: tl => ((1 : ℚ), tl)
      | _ => ((1 : ℚ), l)
    let intPart := l.takeWhile Char.isDigit
    let rest := l.drop intPart.length
    match rest with
    | [] =>
        if intPart = [] then none
        else some (sign * (Nat.ofDigits 10 (intPart.map (fun c => c.toNat - 48)).reverse : ℚ))
    | '.' :: frac =>
        let fracPart := frac.takeWhile Char.isDigit
        if frac.drop fracPart.length ≠ [] then none
        else if intPart = [] ∧ fracPart = [] then none
        else
          let ip : ℚ := (Nat.ofDigits 10 (intPart.map (fun c => c.toNat - 48)).reverse : ℚ)
          let fp : ℚ := (Nat.ofDigits 10 (fracPart.map (fun c => c.toNat - 48)).reverse : ℚ)
          some (sign * (ip + fp / (10 : ℚ) ^ fracPart.length))
    | _ => none

/-- `v if v is not None else default`, then `str(v).strip() or default`
— `_safe_str`. -/
def safe_str (v : Option JVal) (default : Option String) : Option String :=
  match v with
  | none => default
  | some .jnull => default
  | some x =>
      let s := pyStrip (pyStr x)
      if s = "" then default else some s

/-- `_safe_literal`. -/
def safe_literal (v : Option JVal) (allowed : List String) (default : String) :
    String :=
  match v with
  | some (.jstr s) => if s ∈ allowed then s else default
  | _ => default

/-- The 7 permitted positions of `TextBlockLayout.position`. -/
def allowedPositions : List String :=
  ["upper_center", "upper_left", "upper_right", "center",
   "lower_center", "lower_left", "lower_right"]

/-- The permitted font styles. -/
def allowedStyles : List String := ["regular", "bold"]

/-- The permitted font sizes. -/
def allowedSizes : List String := ["sm", "md", "lg", "xl"]

/-- `x or default` for an optional dictionary value, yielding `str`
(`str(x.get(k) or default)` idiom). -/
def pyOrStr (v : Option JVal) (default : String) : String :=
  match v with
  | some x => if pyTruthy x then pyStr x else default
  | none => default

/-- The emphasis parse of `parse_block`; `float(...)` on a malformed
emphasis scale propagates as an error (`ValueError`). -/
def parse_emphasis (x : List (String × JVal)) :
    Except PipeErr (Option EmphasisSpec) :=
  match dictGet x "emphasis" with
  | some (.jdict em) =>
      if (dictGet em "text").elim false pyTruthy then do
        let text := pyStr ((dictGet em "text").getD .jnull)
        let color := pyOrStr (dictGet em "color_hex") "#FF4D4D"
        let scale ←
          match dictGet em "scale" with
          | some v =>
              if pyTruthy v then
                match pyFloat v with
                | some q => pure q
                | none => Except.error PipeErr.floatParse
              else pure defaultEmphScale
          | none => pure defaultEmphScale
        pure (some (⟨text, color, scale⟩ : EmphasisSpec))
      else pure none
  | _ => pure none

/-- The inner `parse_block` of `_parse_layout_dict`. -/
def parse_block (d : List (String × JVal)) (key : String)
    (fb : TextBlockLayout) : Except PipeErr TextBlockLayout :=
  match dictGet d key with
  | some (.jdict x) => do
      let emphasis ← parse_emphasis x
      pure (⟨safe_literal (dictGet x "position") allowedPositions fb.position,
             safe_literal (dictGet x "font_style") allowedStyles fb.font_style,
             safe_literal (dictGet x "font_size") allowedSizes fb.font_size,
             pyOrStr (dictGet x "color_hex") fb.color_hex,
             emphasis⟩ : TextBlockLayout)
  | _ => pure fb

/-- `_parse_layout_dict`. -/
def parse_layout_dict (d : List (String × JVal)) (fallback : LayoutSpec) :
    Except PipeErr LayoutSpec := do
  let headline ← parse_block d "headline" fallback.headline
  let subcopy ← parse_block d "subcopy" fallback.subcopy
  let cta ← parse_block d "cta" fallback.cta
  pure ⟨headline, subcopy, cta⟩

/-- The `must_have` safety tokens. -/
def mustHave : List String := ["no text", "no logo", "no watermark"]

/-- `_enforce_bg_prompt_safety`. -/
def enforce_bg_prompt_safety (prompt : String) : String :=
  let missing := mustHave.filter (fun t => !(isSubB t.data (pyLower prompt).data))
  joinComma (prompt :: missing)

/-- The `copy` step of `_merge_llm_json`. -/
def merge_copy_part (llm : List (String × JVal)) (base : CopySpec) : CopySpec :=
  match dictGet llm "copy" with
  | some (.jdict c) =>
      ⟨pyOrStr (dictGet c "headline") base.headline,
       pyOrStr (dictGet c "subcopy") base.subcopy,
       pyOrStr (dictGet c "cta") base.cta⟩
  | _ => base

/-- The `background_prompt` step of `_merge_llm_json`. -/
def merge_bg_part (llm : List (String × JVal)) (base : String) : String :=
  match dictGet llm "background_prompt" with
  | some (.jstr s) =>
      if pyStrip s ≠ "" then enforce_bg_prompt_safety (pyStrip s) else base
  | _ => base

/-- The `layout` step of `_merge_llm_json`. -/
def merge_layout_part (llm : List (String × JVal)) (base : LayoutSpec) :
    Except PipeErr LayoutSpec :=
  match dictGet llm "layout" with
  | some (.jdict l) => parse_layout_dict l base
  | _ => pure base

/-- The `model_hints` step of `_merge_llm_json`. -/
def merge_hints_part (llm : List (String × JVal)) (base : ModelHints) :
    ModelHints :=
  match dictGet llm "model_hints" with
  | some (.jdict mh) =>
      ⟨safe_str (dictGet mh "lora_key") base.lora_key,
       safe_str (dictGet mh "control_hint") base.control_hint,
       safe_str (dictGet mh "ip_adapter_ref") base.ip_adapter_ref⟩
  | _ => base

/-- `_merge_llm_json`. -/
def merge_llm_json (llm : List (String × JVal)) (baseCopy : CopySpec)
    (baseBg : String) (baseLayout : LayoutSpec) (baseHints : ModelHints) :
    Except PipeErr (CopySpec × String × LayoutSpec × ModelHints) := do
  let copy := merge_copy_part llm baseCopy
  let bg := merge_bg_part llm baseBg
  let layout ← merge_layout_part llm baseLayout
  let hints := merge_hints_part llm baseHints
  pure (copy, bg, layout, hints)

/-- The `(x or "").strip() or None` normalisation applied by
`build_plan` to its optional `discount` and `prompt_extra`. -/
def normStripOpt : Option String → Option String
  | some s => if pyStrip s = "" then none else some (pyStrip s)
  | none => none

/-- `build_plan` — the public entry point of the Plan stage. -/
def build_plan (product : String) (tone : Tone) (discount : Option String)
    (prompt_extra : Option String) (llm_json : Option (List (String × JVal))) :
    Except PipeErr Plan := do
  let product := pyStrip product
  if product = "" then throw PipeErr.invalidInput
  else
    let discount := normStripOpt discount
    let prompt_extra := normStripOpt prompt_extra
    let copy := build_copy_rule product tone discount
    let bg := build_background_prompt_rule product tone prompt_extra
    let layout := build_layout_rule tone discount copy.headline
    let hints : ModelHints := ⟨none, none, none⟩
    match llm_json with
    | some l =>
        if l.isEmpty then
          pure ⟨copy, bg, layout, hints⟩
        else do
          let (copy, bg, layout, hints) ← merge_llm_json l copy bg layout hints
          pure ⟨copy, bg, layout, hints⟩
    | none => pure ⟨copy, bg, layout, hints⟩

/-! ## `app/pipeline/background.py` -/

/-- The only wired background backend (`Backend = Literal["fallback"]`);
other literals would raise `NotImplementedError`. -/
inductive BgBackend where
  | fallback
deriving DecidableEq, Repr

structure BackgroundConfig where
  backend : BgBackend
  size : ℕ × ℕ
deriving DecidableEq, Repr

/-- The blacklist of `_assert_prompt_safe` (source order). -/
def bgBlacklist : List String :=
  ["text", "logo", "watermark", "글자", "문구", "텍스트", "로고"]

/-- `_assert_prompt_safe`: the first forbidden token found in the
lowered prompt, if any (the source raises `ValueError` naming it). -/
def assert_prompt_safe (prompt : String) : Option String :=
  bgBlacklist.find? (fun b => isSubB b.data (pyLower prompt).data)

/-- An RGB color. -/
abbrev RGB := ℕ × ℕ × ℕ

/-- A fallback canvas: every scanline has one color (`draw.line` spans
the full width), so the pixel content is the top-to-bottom row list. -/
structure FallbackImage where
  width : ℕ
  height : ℕ
  rows : List RGB
deriving DecidableEq, Repr

/-- The keyword-selected tone bucket of `_generate_fallback_background`. -/
def baseColorsOf (prompt : String) : RGB × RGB :=
  let pl := (pyLower prompt).data
  if isSubB "luxury".data pl || isSubB "premium".data pl then
    ((40, 30, 20), (90, 70, 50))
  else if isSubB "warm".data pl || isSubB "cozy".data pl then
    ((120, 80, 50), (220, 180, 140))
  else
    ((200, 200, 200), (245, 245, 245))

/-- `random.sample(base_colors, 2)` on the two-element bucket: the RNG
outcome is the explicit `swap` parameter. -/
def sampleOrder (swap : Bool) (pair : RGB × RGB) : RGB × RGB :=
  if swap then (pair.2, pair.1) else pair

/-- One channel of `int(c1*(1-t) + c2*t)` at `t = y / m`, exactly. -/
def interpChan (a b m y : ℕ) : ℕ := (a * (m - y) + b * y) / m

/-- The scanline color at row `y` of an `h`-row gradient. -/
def gradRow (c1 c2 : RGB) (h y : ℕ) : RGB :=
  let m := max 1 (h - 1)
  (interpChan c1.1 c2.1 m y,
   interpChan c1.2.1 c2.2.1 m y,
   interpChan c1.2.2 c2.2.2 m y)

/-- The `for y in range(h)` paint loop over the `(240,240,240)`-filled
canvas created by `Image.new`. -/
def paintRows (c1 c2 : RGB) (h : ℕ) : List RGB :=
  (List.range h).foldl (fun rows y => rows.set y (gradRow c1 c2 h y))
    (List.replicate h (240, 240, 240))

/-- `_generate_fallback_background`. -/
def generate_fallback_background (swap : Bool) (prompt : String)
    (size : ℕ × ℕ) : FallbackImage :=
  let (c1, c2) := sampleOrder swap (baseColorsOf prompt)
  ⟨size.1, size.2, paintRows c1 c2 size.2⟩

/-- `generate_background`. -/
def generate_background (swap : Bool) (prompt : String)
    (cfg : BackgroundConfig) : Except PipeErr FallbackImage :=
  match assert_prompt_safe prompt with
  | some b => .error (.forbiddenToken b)
  | none =>
    match cfg.backend with
    | .fallback => .ok (generate_fallback_background swap prompt cfg.size)

/-! ## `app/pipeline/upscale.py` -/

inductive UpBackend where
  | fallback
deriving DecidableEq, Repr

structure UpscaleConfig where
  backend : UpBackend
  scale : ℕ
  max_size : Option (ℕ × ℕ)
deriving DecidableEq, Repr

/-- Python `min` of two exact fractions (first kept on ties, as by
`min`'s left-to-right scan). -/
def minFrac (a b : ℕ × ℕ) : ℕ × ℕ :=
  if a.1 * b.2 ≤ b.1 * a.2 then a else b

/-- `_upscale_fallback` on the size level (`image.resize` only carries
the computed size; the claims are about sizes).  `none` is the
`ZeroDivisionError` of `max_w / new_w` (resp. `max_h / new_h`); a zero
clamp entry is falsy in Python and yields factor `1.0`. -/
def upscale_fallback (w h : ℕ) (cfg : UpscaleConfig) : Option (ℕ × ℕ) :=
  let nw := w * cfg.scale
  let nh := h * cfg.scale
  match cfg.max_size with
  | none => some (nw, nh)
  | some (mw, mh) =>
      if mw ≠ 0 ∧ nw = 0 then none
      else if mh ≠ 0 ∧ nh = 0 then none
      else
        let fw : ℕ × ℕ := if mw = 0 then (1, 1) else (mw, nw)
        let fh : ℕ × ℕ := if mh = 0 then (1, 1) else (mh, nh)
        let s := minFrac (minFrac fw fh) (1, 1)
        some ((nw * s.1) / s.2, (nh * s.1) / s.2)

/-- `upscale_image`. -/
def upscale_image (w h : ℕ) (cfg : UpscaleConfig) : Option (ℕ × ℕ) :=
  match cfg.backend with
  | .fallback => upscale_fallback w h cfg

/-! ## `app/services/copy_service.py` -/

/-- `_pick`. -/
def pick (primary fb : String) : String :=
  if pyStrip primary ≠ "" then primary else fb

/-- `_finalize`.  The `extra` hint is interpolated as `f"{subcopy}"`,
which leaves `subcopy` unchanged. -/
def finalize (headline subcopy cta : String) : CopySpec :=
  let headline := pyStrip headline
  let subcopy := pyStrip subcopy
  let cta := pyStrip cta
  let headline :=
    if headline.length > 20 then pyTake headline 18 ++ "…" else headline
  let subcopy :=
    if subcopy.length > 40 then pyTake subcopy 38 ++ "…" else subcopy
  ⟨headline, subcopy, cta⟩

/-- `_casual_copy`. -/
def casual_copy (product discount : String) : CopySpec :=
  finalize
    (pick (if discount ≠ "" then discount ++ " 지금!" else product ++ " 추천!")
      (product ++ " 어떠세요?"))
    (pick "가볍게 즐기기 딱 좋아요" "지금 가장 인기 있는 선택")
    "바로 확인하기"

/-- `_premium_copy`. -/
def premium_copy (product discount : String) : CopySpec :=
  finalize
    (pick (if discount ≠ "" then product ++ " " ++ discount else product ++ " 런칭")
      (product ++ " 컬렉션"))
    (pick "완성도 높은 선택을 경험하세요" "프리미엄 무드를 담았습니다")
    "자세히 보기"

/-- `_emotional_copy`. -/
def emotional_copy (product discount : String) : CopySpec :=
  finalize
    (pick (if discount ≠ "" then discount ++ " 오늘만" else product ++ " 한 잔의 여유")
      (product ++ "의 순간"))
    (pick "일상 속 작은 행복을 전해요" "잠시 쉬어가도 괜찮아요")
    "지금 만나보세요"

/-- `generate_copy`. -/
def generate_copy (product : String) (tone : Tone)
    (discount extra_hint : Option String) : CopySpec :=
  let product := pyStrip product
  let discount := pyStrip (discount.getD "")
  let _extra := pyStrip (extra_hint.getD "")
  match tone with
  | .premium => premium_copy product discount
  | .emotional => emotional_copy product discount
  | .casual => casual_copy product discount

/-! ## `app/services/layout_service.py` -/

/-- An RGBA color. -/
abbrev RGBA := ℕ × ℕ × ℕ × ℕ

structure ResolvedTextLayout where
  x : ℕ
  y : ℕ
  font_px : ℕ
  anchor : String
  color : RGBA
  emphasis : Option EmphasisSpec
deriving DecidableEq, Repr

/-- `_safe_vertical_margins` (`int(h * f)` with the exact fraction). -/
def safe_vertical_margins (platform : String) (h : ℕ) : ℕ × ℕ :=
  if platform = "instagram" then (h * 10 / 100, h * 10 / 100)
  else if platform = "poster" then (h * 8 / 100, h * 8 / 100)
  else if platform = "banner" then (h * 15 / 100, h * 15 / 100)
  else (h * 10 / 100, h * 10 / 100)

/-- `_resolve_font_px`; `none` is the `KeyError` on a `font_size`
outside the table. -/
def resolve_font_px (font_size platform : String) : Option ℕ :=
  let table : List (String × ℕ) :=
    if platform = "poster" then [("sm", 48), ("md", 72), ("lg", 96), ("xl", 140)]
    else if platform = "banner" then [("sm", 32), ("md", 48), ("lg", 64), ("xl", 88)]
    else [("sm", 36), ("md", 52), ("lg", 72), ("xl", 96)]
  (table.find? (fun p => p.1 == font_size)).map (·.2)

/-- `_resolve_position_xy`. -/
def resolve_position_xy (position : String) (w h safe_top safe_bottom : ℕ) :
    ℕ × ℕ × String :=
  if position = "upper_center" then (w / 2, safe_top, "ma")
  else if position = "upper_left" then (w * 8 / 100, safe_top, "la")
  else if position = "upper_right" then (w * 92 / 100, safe_top, "ra")
  else if position = "center" then (w / 2, h / 2, "mm")
  else if position = "lower_center" then (w / 2, h - safe_bottom, "md")
  else if position = "lower_left" then (w * 8 / 100, h - safe_bottom, "ld")
  else if position = "lower_right" then (w * 92 / 100, h - safe_bottom, "rd")
  else (w / 2, h / 2, "mm")

/-- One hexadecimal digit (`int(-, 16)` accepts both cases). -/
def hexVal (c : Char) : Option ℕ :=
  if '0' ≤ c ∧ c ≤ '9' then some (c.toNat - 48)
  else if 'a' ≤ c ∧ c ≤ 'f' then some (c.toNat - 87)
  else if 'A' ≤ c ∧ c ≤ 'F' then some (c.toNat - 55)
  else none

/-- Two hexadecimal digits. -/
def hexPair (a b : Char) : Option ℕ := do
  let x ← hexVal a
  let y ← hexVal b
  pure (16 * x + y)

/-- `_hex_to_rgba` (identical in `layout_service` and `render_service`);
`none` is the `ValueError` of `int(-, 16)` on a non-hex character. -/
def hex_to_rgba (hex : String) : Option RGBA :=
  let l := hex.data.dropWhile (fun c => c = '#')
  if l.length ≠ 6 then some (255, 255, 255, 255)
  else
    match l with
    | [a, b, c, d, e, f] => do
        let r ← hexPair a b
        let g ← hexPair c d
        let bl ← hexPair e f
        pure (r, g, bl, 255)
    | _ => none

/-- `resolve_text_layout`. -/
def resolve_text_layout (canvas_size : ℕ × ℕ) (position font_size color_hex : String)
    (emphasis : Option EmphasisSpec) (platform : String) :
    Option ResolvedTextLayout := do
  let (w, h) := canvas_size
  let (safe_top, safe_bottom) := safe_vertical_margins platform h
  let font_px ← resolve_font_px font_size platform
  let (x, y, anchor) := resolve_position_xy position w h safe_top safe_bottom
  let color ← hex_to_rgba color_hex
  pure ⟨x, y, font_px, anchor, color, emphasis⟩

/-! ## `app/services/render_service.py`

The renderer is modelled down to its `draw.text` calls: a block is a
list of draw commands (position, string, font style and pixel size,
fill color, anchor).  Pixel content is a function of the command list,
so equal command lists give pixel-identical canvases.  Text measurement
(`font.getlength`) depends on the font files, and is an oracle
parameter `M : style → px → text → width`. -/

inductive DrawCmd where
  | text (x y : ℚ) (s : String) (fontStyle : String) (fontPx : ℤ)
      (color : RGBA) (anchor : String)
deriving DecidableEq

/-- Python `int()` on an exact rational: truncation toward zero. -/
def pyIntQ (q : ℚ) : ℤ := Int.tdiv q.num q.den

/-- `text.split(target, 1)` for a target known to occur: the pieces
before and after the first occurrence. -/
def splitOnce (text target : List Char) : List Char × List Char :=
  match text with
  | [] => ([], [])
  | c :: tl =>
      if isPrefB target (c :: tl) then ([], (c :: tl).drop target.length)
      else
        let (b, a) := splitOnce tl target
        (c :: b, a)

/-- `_draw_text_with_emphasis`. -/
def draw_text_with_emphasis (M : String → ℤ → String → ℚ)
    (base_xy : ℕ × ℕ) (anchor : String) (baseStyle : String) (basePx : ℕ)
    (base_color : RGBA) (text : String) (em : EmphasisSpec) :
    Option (List DrawCmd) :=
  if em.text = "" || !isSubB em.text.data text.data then
    some [.text base_xy.1 base_xy.2 text baseStyle basePx base_color anchor]
  else
    let (before, after) := splitOnce text.data em.text.data
    let emphPx : ℤ := pyIntQ ((basePx : ℚ) * em.scale)
    match hex_to_rgba em.color_hex with
    | none => none
    | some emph_color =>
        let bw := M baseStyle basePx ⟨before⟩
        let tw := M "bold" emphPx em.text
        let aw := M baseStyle basePx ⟨after⟩
        let total := bw + tw + aw
        let startX : ℚ := (base_xy.1 : ℚ) - total / 2
        some [.text startX base_xy.2 ⟨before⟩ baseStyle basePx base_color "lm",
              .text (startX + bw) base_xy.2 em.text "bold" emphPx emph_color "lm",
              .text (startX + bw + tw) base_xy.2 ⟨after⟩ baseStyle basePx
                base_color "lm"]

/-- `_draw_text_block`. -/
def draw_text_block (M : String → ℤ → String → ℚ) (canvas_size : ℕ × ℕ)
    (text : String) (spec : TextBlockLayout) (platform : String) :
    Option (List DrawCmd) :=
  if text = "" then some []
  else do
    let resolved ← resolve_text_layout canvas_size spec.position spec.font_size
      spec.color_hex spec.emphasis platform
    match resolved.emphasis with
    | none =>
        some [.text resolved.x resolved.y text spec.font_style resolved.font_px
          resolved.color resolved.anchor]
    | some em =>
        draw_text_with_emphasis M (resolved.x, resolved.y) resolved.anchor
          spec.font_style resolved.font_px resolved.color text em

/-! ## Validity predicates and witness-support values -/

/-- A `TextBlockLayout` lies inside the declared enums. -/
def validBlock (b : TextBlockLayout) : Prop :=
  b.position ∈ allowedPositions ∧ b.font_style ∈ allowedStyles ∧
  b.font_size ∈ allowedSizes

instance (b : TextBlockLayout) : Decidable (validBlock b) := by
  unfold validBlock; infer_instance

/-- All three blocks of a `LayoutSpec` lie inside the declared enums. -/
def validLayout (l : LayoutSpec) : Prop :=
  validBlock l.headline ∧ validBlock l.subcopy ∧ validBlock l.cta

instance (l : LayoutSpec) : Decidable (validLayout l) := by
  unfold validLayout; infer_instance

/-- Concrete plan for the C1 witness (product 커피, casual tone). -/
def planW1 : Plan :=
  ((build_plan "커피" Tone.casual none none none).toOption).get (by rfl)

/-- Concrete plan for the C2 witness. -/
def planW2 : Plan :=
  ((build_plan "커피" Tone.emotional (some "50% 할인") none none).toOption).get
    (by rfl)

/-- The `llm_json` of the C6 witness: a layout override with one valid
and one out-of-enum field. -/
def llmW6 : List (String × JVal) :=
  [("layout", .jdict
    [("headline", .jdict [("position", .jstr "everywhere"),
                          ("font_size", .jstr "sm")])])]

/-- Concrete plan for the C6 witness. -/
def planW6 : Plan :=
  ((build_plan "커피" Tone.casual none none (some llmW6)).toOption).get (by rfl)

/-! ## General lemmas about the string primitives -/

theorem isPrefB_iff (p l : List Char) : isPrefB p l = true ↔ p <+: l := by
  induction p generalizing l with
  | nil => simp [isPrefB]
  | cons a as ih =>
    cases l with
    | nil => simp [isPrefB]
    | cons b bs =>
      simp only [isPrefB, Bool.and_eq_true, decide_eq_true_eq, ih,
        List.cons_prefix_cons]

theorem isSubB_iff (p l : List Char) : isSubB p l = true ↔ p <:+: l := by
  induction l with
  | nil => simp [isSubB, isPrefB_iff]
  | cons c tl ih =>
    simp only [isSubB, Bool.or_eq_true, isPrefB_iff, ih, List.infix_cons_iff]

theorem infix_app_right {l l₁ : List Char} (l₂ : List Char) (h : l <:+: l₁) :
    l <:+: l₁ ++ l₂ := by
  obtain ⟨s, t, rfl⟩ := h
  exact ⟨s, t ++ l₂, by simp⟩

theorem infix_app_left {l l₂ : List Char} (l₁ : List Char) (h : l <:+: l₂) :
    l <:+: l₁ ++ l₂ := by
  obtain ⟨s, t, rfl⟩ := h
  exact ⟨l₁ ++ s, t, by simp⟩

theorem pyLower_data_append (a b : String) :
    (pyLower (a ++ b)).data = (pyLower a).data ++ (pyLower b).data := by
  simp [pyLower, String.data_append]

theorem joinComma_append (l₁ l₂ : List String) (h₁ : l₁ ≠ []) (h₂ : l₂ ≠ []) :
    joinComma (l₁ ++ l₂) = joinComma l₁ ++ ", " ++ joinComma l₂ := by
  induction l₁ with
  | nil => exact absurd rfl h₁
  | cons a as ih =>
    cases as with
    | nil =>
      cases l₂ with
      | nil => exact absurd rfl h₂
      | cons b bs => simp [joinComma]
    | cons a' as' =>
      have : joinComma ((a :: a' :: as') ++ l₂) =
          a ++ ", " ++ joinComma ((a' :: as') ++ l₂) := by
        cases l₂ <;> simp [joinComma]
      rw [this, ih (by simp)]
      cases l₂ with
      | nil => exact absurd rfl h₂
      | cons b bs => simp [joinComma, String.append_assoc]

theorem mem_joinComma {s : String} {l : List String} (h : s ∈ l) :
    s.data <:+: (joinComma l).data := by
  induction l with
  | nil => cases h
  | cons a as ih =>
    rcases List.mem_cons.mp h with rfl | hmem
    · cases as with
      | nil => simp [joinComma]
      | cons a' as' =>
        simp only [joinComma, String.data_append]
        exact infix_app_right _ (infix_app_right _ (List.infix_refl _))
    · cases as with
      | nil => cases hmem
      | cons a' as' =>
        simp only [joinComma, String.data_append]
        exact infix_app_left _ (ih hmem)

theorem isWs_ofNat_letter (n : ℕ) (h1 : 97 ≤ n) (h2 : n ≤ 122) :
    isWs (Char.ofNat n) = false := by
  interval_cases n <;> decide

theorem isWs_lowerChar (c : Char) : isWs (lowerChar c) = isWs c := by
  by_cases hw : isWs c = true
  · have hc : lowerChar c = c := by
      have h6 : ((((c = ' ' ∨ c = '\t') ∨ c = '\n') ∨ c = '\x0d') ∨ c = '\x0b') ∨
          c = '\x0c' := by simpa [isWs] using hw
      rcases h6 with ((((rfl | rfl) | rfl) | rfl) | rfl) | rfl <;> decide
    rw [hc]
  · rw [Bool.not_eq_true] at hw
    rw [hw]
    unfold lowerChar
    split
    next h =>
      have h1 : 65 ≤ c.toNat := h.1
      have h2 : c.toNat ≤ 90 := h.2
      exact isWs_ofNat_letter _ (by omega) (by omega)
    next h => exact hw

theorem stripList_map_lower (l : List Char) :
    stripList (l.map lowerChar) = (stripList l).map lowerChar := by
  have hcomp : (isWs ∘ lowerChar) = isWs := funext isWs_lowerChar
  unfold stripList
  rw [List.dropWhile_map, hcomp, ← List.map_reverse, List.dropWhile_map, hcomp,
    List.map_reverse]

theorem lower_strip_comm (s : String) :
    (pyLower (pyStrip s)).data = stripList ((pyLower s).data) := by
  simp [pyLower, pyStrip, stripList_map_lower]

theorem infix_dropWhile {l cs : List Char} (hne : l ≠ [])
    (hws : ∀ c ∈ l, isWs c = false) (h : l <:+: cs) :
    l <:+: cs.dropWhile isWs := by
  induction cs with
  | nil =>
    rw [List.infix_nil] at h
    exact absurd h hne
  | cons c tl ih =>
    by_cases hc : isWs c = true
    · rw [List.dropWhile_cons_of_pos hc]
      rcases List.infix_cons_iff.mp h with hpre | hinf
      · cases l with
        | nil => exact absurd rfl hne
        | cons a as =>
          have := (List.cons_prefix_cons.mp hpre).1
          subst this
          exact absurd hc (by simp [hws a (by simp)])
      · exact ih hinf
    · rw [List.dropWhile_cons_of_neg hc]
      exact h

theorem infix_stripList {l cs : List Char} (hne : l ≠ [])
    (hws : ∀ c ∈ l, isWs c = false) (h : l <:+: cs) :
    l <:+: stripList cs := by
  have h1 : l <:+: cs.dropWhile isWs := infix_dropWhile hne hws h
  have h2 : l.reverse <:+: (cs.dropWhile isWs).reverse :=
    List.reverse_infix.mpr h1
  have h3 : l.reverse <:+: ((cs.dropWhile isWs).reverse).dropWhile isWs :=
    infix_dropWhile (by simpa using hne) (by simpa using hws) h2
  unfold stripList
  rw [← List.reverse_infix]
  simpa using h3

/-! ## The background-prompt safety tokens -/

theorem bg_rule_split (product : String) (tone : Tone) (extra : Option String) :
    ∃ r : String, build_background_prompt_rule product tone extra =
      joinComma bgBaseTokens ++ ", " ++ r := by
  have hbase : bgBaseTokens ≠ [] := by simp [bgBaseTokens]
  have htone : ∀ s, bgToneTokens tone ++ [s] ≠ [] := by
    intro s
    cases tone <;> simp [bgToneTokens]
  unfold build_background_prompt_rule
  rcases extra with _ | e
  · refine ⟨joinComma (bgToneTokens tone ++ ["fits well with " ++ product]), ?_⟩
    dsimp only
    rw [List.append_assoc]
    exact joinComma_append _ _ hbase (htone _)
  · dsimp only
    split
    · refine ⟨joinComma (bgToneTokens tone ++ ["fits well with " ++ product]), ?_⟩
      rw [List.append_assoc]
      exact joinComma_append _ _ hbase (htone _)
    · refine ⟨joinComma ((bgToneTokens tone ++ ["fits well with " ++ product]) ++
        [strip_text_like_tokens e]), ?_⟩
      rw [List.append_assoc, List.append_assoc]
      rw [← List.append_assoc (bgToneTokens tone)]
      exact joinComma_append _ _ hbase (by simp)

set_option maxRecDepth 4000 in
theorem tokens_in_lower_base :
    ∀ t ∈ mustHave, t.data <:+: (pyLower (joinComma bgBaseTokens ++ ", ")).data := by
  decide

theorem rule_prompt_has_tokens (product : String) (tone : Tone)
    (extra : Option String) :
    ∀ t ∈ mustHave,
      t.data <:+: (pyLower (build_background_prompt_rule product tone extra)).data := by
  intro t ht
  obtain ⟨r, hr⟩ := bg_rule_split product tone extra
  rw [hr, pyLower_data_append]
  exact infix_app_right _ (tokens_in_lower_base t ht)

theorem tokens_map_lower :
    ∀ t ∈ mustHave, t.data.map lowerChar = t.data := by
  decide

theorem enforce_has_tokens (p : String) :
    ∀ t ∈ mustHave, t.data <:+: (pyLower (enforce_bg_prompt_safety p)).data := by
  intro t ht
  rw [show enforce_bg_prompt_safety p = joinComma
    (p :: mustHave.filter (fun t => !(isSubB t.data (pyLower p).data))) from rfl]
  by_cases hc : isSubB t.data (pyLower p).data = true
  · have h1 : t.data <:+: (pyLower p).data := (isSubB_iff _ _).mp hc
    cases hmiss : mustHave.filter (fun t => !(isSubB t.data (pyLower p).data)) with
    | nil =>
      simpa [joinComma] using h1
    | cons m ms =>
      simp only [joinComma]
      rw [pyLower_data_append]
      apply infix_app_right
      rw [pyLower_data_append]
      exact infix_app_right _ h1
  · have hcf : isSubB t.data (pyLower p).data = false := by
      revert hc
      cases isSubB t.data (pyLower p).data <;> simp
    have hmem : t ∈ p :: mustHave.filter
        (fun t => !(isSubB t.data (pyLower p).data)) :=
      List.mem_cons_of_mem _ (List.mem_filter.mpr ⟨ht, by simp [hcf]⟩)
    have h2 := mem_joinComma hmem
    have h3 := h2.map lowerChar
    rw [tokens_map_lower t ht] at h3
    exact h3

/-! ## Decomposition of `build_plan` results -/

theorem merge_bg_part_cases (llm : List (String × JVal)) (base : String) :
    merge_bg_part llm base = base ∨
    ∃ s, merge_bg_part llm base = enforce_bg_prompt_safety (pyStrip s) := by
  unfold merge_bg_part
  rcases dictGet llm "background_prompt" with _ | v
  · exact Or.inl rfl
  · cases v
    case jstr s =>
      dsimp only
      split
      · exact Or.inr ⟨s, rfl⟩
      · exact Or.inl rfl
    all_goals exact Or.inl rfl

theorem merge_ok_parts {llm : List (String × JVal)} {c : CopySpec} {bg : String}
    {lay : LayoutSpec} {h : ModelHints}
    {r : CopySpec × String × LayoutSpec × ModelHints}
    (hm : merge_llm_json llm c bg lay h = .ok r) :
    r.2.1 = merge_bg_part llm bg ∧
    (r.2.2.1 = lay ∨ ∃ d, dictGet llm "layout" = some (.jdict d) ∧
        parse_layout_dict d lay = .ok r.2.2.1) := by
  unfold merge_llm_json at hm
  rcases hL : merge_layout_part llm lay with e | L
  · rw [hL] at hm
    simp [bind, Except.bind] at hm
  · rw [hL] at hm
    simp only [bind, Except.bind, pure, Except.pure, Except.ok.injEq] at hm
    subst hm
    refine ⟨rfl, ?_⟩
    unfold merge_layout_part at hL
    rcases hd : dictGet llm "layout" with _ | v
    · rw [hd] at hL
      simp only [pure, Except.pure, Except.ok.injEq] at hL
      exact Or.inl hL.symm
    · rw [hd] at hL
      cases v
      case jdict d => exact Or.inr ⟨d, rfl, hL⟩
      all_goals
        simp only [pure, Except.pure, Except.ok.injEq] at hL
        exact Or.inl hL.symm

theorem build_plan_ok_parts {product : String} {tone : Tone}
    {discount prompt_extra : Option String}
    {llm : Option (List (String × JVal))} {plan : Plan}
    (h : build_plan product tone discount prompt_extra llm = .ok plan) :
    (plan.background_prompt =
        build_background_prompt_rule (pyStrip product) tone
          (normStripOpt prompt_extra) ∨
      ∃ s, plan.background_prompt = enforce_bg_prompt_safety (pyStrip s)) ∧
    (plan.layout = build_layout_rule tone (normStripOpt discount)
        (build_copy_rule (pyStrip product) tone (normStripOpt discount)).headline ∨
      ∃ d, parse_layout_dict d
          (build_layout_rule tone (normStripOpt discount)
            (build_copy_rule (pyStrip product) tone
              (normStripOpt discount)).headline) = .ok plan.layout) := by
  rcases llm with _ | l
  · unfold build_plan at h
    dsimp only at h
    split at h
    · exact Except.noConfusion h
    · simp only [pure, Except.pure, Except.ok.injEq] at h
      subst h
      exact ⟨Or.inl rfl, Or.inl rfl⟩
  · unfold build_plan at h
    dsimp only at h
    split at h
    · exact Except.noConfusion h
    · split at h
      · simp only [pure, Except.pure, Except.ok.injEq] at h
        subst h
        exact ⟨Or.inl rfl, Or.inl rfl⟩
      · rcases hm : merge_llm_json l
            (build_copy_rule (pyStrip product) tone (normStripOpt discount))
            (build_background_prompt_rule (pyStrip product) tone
              (normStripOpt prompt_extra))
            (build_layout_rule tone (normStripOpt discount)
              (build_copy_rule (pyStrip product) tone
                (normStripOpt discount)).headline)
            ⟨none, none, none⟩ with e | r
        · rw [hm] at h
          exact Except.noConfusion h
        · rw [hm] at h
          have h2 : Except.ok (Plan.mk r.1 r.2.1 r.2.2.1 r.2.2.2) =
              Except.ok plan := h
          have h3 := Except.ok.inj h2
          subst h3
          obtain ⟨hbg, hlay⟩ := merge_ok_parts hm
          constructor
          · rw [show (Plan.mk r.1 r.2.1 r.2.2.1 r.2.2.2).background_prompt
                = r.2.1 from rfl, hbg]
            rcases merge_bg_part_cases l
              (build_background_prompt_rule (pyStrip product) tone
                (normStripOpt prompt_extra)) with he | ⟨s, he⟩
            · exact Or.inl he
            · exact Or.inr ⟨s, he⟩
          · rcases hlay with h1 | ⟨d, _, h2⟩
            · exact Or.inl h1
            · exact Or.inr ⟨d, h2⟩

theorem plan_bg_has_tokens {product : String} {tone : Tone}
    {discount prompt_extra : Option String}
    {llm : Option (List (String × JVal))} {plan : Plan}
    (h : build_plan product tone discount prompt_extra llm = .ok plan) :
    ∀ t ∈ mustHave, t.data <:+: (pyLower plan.background_prompt).data := by
  obtain ⟨hbg, -⟩ := build_plan_ok_parts h
  intro t ht
  rcases hbg with h1 | ⟨s, h1⟩ <;> rw [h1]
  · exact rule_prompt_has_tokens _ _ _ t ht
  · exact enforce_has_tokens _ t ht

/-- C1: for every non-empty product, tone, discount, prompt_extra and
llm_json (background-prompt overrides included), the `background_prompt`
of the Plan returned by `build_plan` contains each of the three safety
tokens `no text`, `no logo`, `no watermark` as a case-insensitive
substring. -/
theorem C1_background_prompt_safety (product : String) (tone : Tone)
    (discount prompt_extra : Option String)
    (llm : Option (List (String × JVal))) (plan : Plan)
    (h : build_plan product tone discount prompt_extra llm = .ok plan) :
    "no text".data <:+: (pyLower plan.background_prompt).data ∧
    "no logo".data <:+: (pyLower plan.background_prompt).data ∧
    "no watermark".data <:+: (pyLower plan.background_prompt).data :=
  ⟨plan_bg_has_tokens h "no text" (by simp [mustHave]),
   plan_bg_has_tokens h "no logo" (by simp [mustHave]),
   plan_bg_has_tokens h "no watermark" (by simp [mustHave])⟩

theorem C1_background_prompt_safety_witness :
    "no text".data <:+: (pyLower planW1.background_prompt).data ∧
    "no logo".data <:+: (pyLower planW1.background_prompt).data ∧
    "no watermark".data <:+: (pyLower planW1.background_prompt).data :=
  C1_background_prompt_safety "커피" Tone.casual none none none planW1 rfl

theorem assert_some_text {p : String}
    (h : "text".data <:+: (pyLower p).data) :
    assert_prompt_safe p = some "text" := by
  unfold assert_prompt_safe bgBlacklist
  exact List.find?_cons_of_pos _ (by simpa using (isSubB_iff _ _).mpr h)

/-- C2 (code bug): the forbidden-token check of `generate_background`
fires on *every* `build_plan` prompt — the prompt always contains
`no text`, hence the blacklisted substring `text`, so the stage raises
`ValueError` instead of returning a canvas. -/
theorem C2_generate_background_rejects_plan_prompts (product : String)
    (tone : Tone) (discount prompt_extra : Option String)
    (llm : Option (List (String × JVal))) (plan : Plan) (swap : Bool)
    (cfg : BackgroundConfig)
    (h : build_plan product tone discount prompt_extra llm = .ok plan) :
    generate_background swap plan.background_prompt cfg =
      .error (.forbiddenToken "text") := by
  have h1 := plan_bg_has_tokens h "no text" (by simp [mustHave])
  have h2 : "text".data <:+: (pyLower plan.background_prompt).data :=
    List.IsInfix.trans (by decide) h1
  unfold generate_background
  rw [assert_some_text h2]

theorem C2_generate_background_rejects_plan_prompts_witness :
    generate_background false planW2.background_prompt
      ⟨.fallback, (1080, 1080)⟩ = .error (.forbiddenToken "text") :=
  C2_generate_background_rejects_plan_prompts "커피" Tone.emotional
    (some "50% 할인") none none planW2 false ⟨.fallback, (1080, 1080)⟩ rfl

/-! ## C8: blacklisted hints are dropped -/

theorem hintBlacklist_props :
    ∀ b ∈ hintBlacklist, (pyLower b).data ≠ [] ∧
      ∀ c ∈ (pyLower b).data, isWs c = false := by
  decide

theorem strip_hint_dropped {extra : String}
    (hb : hintBlacklist.any
      (fun b => isSubB (pyLower b).data (pyLower extra).data) = true) :
    strip_text_like_tokens (pyStrip extra) = "" := by
  unfold strip_text_like_tokens
  rw [if_pos]
  obtain ⟨b, hmem, hsub⟩ := List.any_eq_true.mp hb
  have h1 : (pyLower b).data <:+: (pyLower extra).data := (isSubB_iff _ _).mp hsub
  obtain ⟨hne, hws⟩ := hintBlacklist_props b hmem
  have h2 : (pyLower b).data <:+: stripList ((pyLower extra).data) :=
    infix_stripList hne hws h1
  rw [← lower_strip_comm] at h2
  exact List.any_eq_true.mpr ⟨b, hmem, (isSubB_iff _ _).mpr h2⟩

theorem bg_rule_drops_blacklisted_extra (product : String) (tone : Tone)
    {extra : String}
    (hb : hintBlacklist.any
      (fun b => isSubB (pyLower b).data (pyLower extra).data) = true) :
    build_background_prompt_rule product tone (normStripOpt (some extra)) =
      build_background_prompt_rule product tone none := by
  rw [show normStripOpt (some extra) =
    (if pyStrip extra = "" then none else some (pyStrip extra)) from rfl]
  split
  · rfl
  · unfold build_background_prompt_rule
    dsimp only
    rw [strip_hint_dropped hb]
    simp

/-- C8 (amended): a `prompt_extra` containing a blacklisted token is
silently dropped — `build_plan` succeeds for a non-empty product and
returns exactly the plan it would return with no `prompt_extra` at all
(so the hint never becomes a prompt segment; the fixed prompt may still
contain the hint as a substring, e.g. inside `no text`). -/
theorem C8_blacklisted_hint_dropped (product : String) (tone : Tone)
    (extra : String)
    (hb : hintBlacklist.any
      (fun b => isSubB (pyLower b).data (pyLower extra).data) = true) :
    build_plan product tone none (some extra) none =
      build_plan product tone none none none ∧
    (pyStrip product ≠ "" → ∃ plan,
      build_plan product tone none (some extra) none = .ok plan) := by
  constructor
  · unfold build_plan
    dsimp only
    rw [bg_rule_drops_blacklisted_extra (pyStrip product) tone hb]
    rfl
  · intro hp
    unfold build_plan
    dsimp only
    rw [if_neg hp]
    exact ⟨_, rfl⟩

theorem C8_blacklisted_hint_dropped_witness :
    (build_plan "커피" Tone.casual none (some "로고 느낌") none =
      build_plan "커피" Tone.casual none none none ∧
    (pyStrip "커피" ≠ "" → ∃ plan,
      build_plan "커피" Tone.casual none (some "로고 느낌") none = .ok plan)) ∧
    hintBlacklist.any
      (fun b => isSubB (pyLower b).data (pyLower "로고 느낌").data) = true :=
  ⟨C8_blacklisted_hint_dropped "커피" Tone.casual "로고 느낌" (by decide),
   by decide⟩

set_option maxRecDepth 8000 in
/-- C8 counterexample: with `prompt_extra = "text"` (a blacklisted
token), `build_plan` succeeds but the resulting background prompt *does*
contain the `prompt_extra` value verbatim (inside the safety token
`no text`), contrary to the claim's verbatim-exclusion clause. -/
theorem C8_counterexample :
    (build_plan "커피" Tone.casual none (some "text") none).map
      (fun p => isSubB "text".data p.background_prompt.data) = .ok true := by
  rfl

/-! ## C4: copy length limits -/

theorem finalize_bounds (h s c : String) :
    (finalize h s c).headline.length ≤ 20 ∧
    (finalize h s c).subcopy.length ≤ 40 := by
  unfold finalize
  dsimp only
  constructor
  · split
    next hl =>
      show (pyTake (pyStrip h) 18 ++ "…").length ≤ 20
      rw [String.length_append]
      have h1 : (pyTake (pyStrip h) 18).length ≤ 18 := by
        show ((pyStrip h).data.take 18).length ≤ 18
        rw [List.length_take]
        omega
      have h2 : ("…" : String).length = 1 := rfl
      omega
    next hl => omega
  · split
    next hl =>
      show (pyTake (pyStrip s) 38 ++ "…").length ≤ 40
      rw [String.length_append]
      have h1 : (pyTake (pyStrip s) 38).length ≤ 38 := by
        show ((pyStrip s).data.take 38).length ≤ 38
        rw [List.length_take]
        omega
      have h2 : ("…" : String).length = 1 := rfl
      omega
    next hl => omega

/-- C4 (amended): the copy dictionary produced by `generate_copy` never
exceeds the build-time display limits (headline ≤ 20 characters,
subcopy ≤ 40 characters; over-long strings are truncated with an
ellipsis in `_finalize`).  The `CopySpec` built by `build_plan` is *not*
subject to this truncation and can exceed the limits (see the
counterexample). -/
theorem C4_generate_copy_within_limits (product : String) (tone : Tone)
    (discount extra_hint : Option String) :
    (generate_copy product tone discount extra_hint).headline.length ≤ 20 ∧
    (generate_copy product tone discount extra_hint).subcopy.length ≤ 40 := by
  unfold generate_copy
  cases tone <;>
    simp only [casual_copy, premium_copy, emotional_copy] <;>
    exact finalize_bounds _ _ _

set_option maxRecDepth 8000 in
/-- C4 counterexample: `build_plan` applies no truncation — a 30-character
discount yields a 34-character plan headline, beyond the 20-character
build-time display limit enforced by `copy_service._finalize`. -/
theorem C4_counterexample :
    (build_plan "커피" Tone.casual (some "123456789012345678901234567890")
        none none).map (fun p => p.copy.headline.length) = .ok 34 ∧
    ¬(34 ≤ 20) := by
  constructor
  · rfl
  · decide

/-! ## C6: layout-override merges stay inside the enums -/

theorem safe_literal_valid {v : Option JVal} {allowed : List String}
    {d : String} (hd : d ∈ allowed) : safe_literal v allowed d ∈ allowed := by
  unfold safe_literal
  rcases v with _ | x
  · exact hd
  · cases x
    case jstr s =>
      dsimp only
      split
      · assumption
      · exact hd
    all_goals exact hd

theorem parse_block_valid {d : List (String × JVal)} {key : String}
    {fb b : TextBlockLayout} (hfb : validBlock fb)
    (h : parse_block d key fb = .ok b) : validBlock b := by
  unfold parse_block at h
  rcases hx : dictGet d key with _ | v
  · rw [hx] at h
    dsimp only at h
    exact Except.ok.inj h ▸ hfb
  · rw [hx] at h
    cases v
    case jdict x =>
      dsimp only at h
      rcases hE : parse_emphasis x with e | em
      · rw [hE] at h
        exact Except.noConfusion h
      · rw [hE] at h
        have h2 : Except.ok (TextBlockLayout.mk
            (safe_literal (dictGet x "position") allowedPositions fb.position)
            (safe_literal (dictGet x "font_style") allowedStyles fb.font_style)
            (safe_literal (dictGet x "font_size") allowedSizes fb.font_size)
            (pyOrStr (dictGet x "color_hex") fb.color_hex) em) =
            Except.ok b := h
        rw [← Except.ok.inj h2]
        exact ⟨safe_literal_valid hfb.1, safe_literal_valid hfb.2.1,
          safe_literal_valid hfb.2.2⟩
    all_goals
      dsimp only at h
      exact Except.ok.inj h ▸ hfb

theorem parse_layout_dict_valid {d : List (String × JVal)} {fb L : LayoutSpec}
    (hfb : validLayout fb) (h : parse_layout_dict d fb = .ok L) :
    validLayout L := by
  unfold parse_layout_dict at h
  rcases h1 : parse_block d "headline" fb.headline with e | bh
  · rw [h1] at h
    exact Except.noConfusion h
  · rw [h1] at h
    rcases h2 : parse_block d "subcopy" fb.subcopy with e | bs
    · rw [h2] at h
      exact Except.noConfusion h
    · rw [h2] at h
      rcases h3 : parse_block d "cta" fb.cta with e | bc
      · rw [h3] at h
        exact Except.noConfusion h
      · rw [h3] at h
        have h4 : Except.ok (LayoutSpec.mk bh bs bc) = Except.ok L := h
        rw [← Except.ok.inj h4]
        exact ⟨parse_block_valid hfb.1 h1, parse_block_valid hfb.2.1 h2,
          parse_block_valid hfb.2.2 h3⟩

theorem build_layout_rule_valid (tone : Tone) (discount : Option String)
    (headline : String) : validLayout (build_layout_rule tone discount headline) := by
  unfold build_layout_rule validLayout validBlock
  cases tone <;> simp [allowedPositions, allowedStyles, allowedSizes]

/-- C6: whatever `llm_json` contains, if `build_plan` returns a Plan
then every block of its layout has a position among the 7 anchors, a
font style in {regular, bold} and a font size in {sm, md, lg, xl} —
invalid override entries fall back to the rule-based value. -/
theorem C6_layout_merge_stays_in_enums (product : String) (tone : Tone)
    (discount prompt_extra : Option String)
    (llm : Option (List (String × JVal))) (plan : Plan)
    (h : build_plan product tone discount prompt_extra llm = .ok plan) :
    validBlock plan.layout.headline ∧ validBlock plan.layout.subcopy ∧
    validBlock plan.layout.cta := by
  obtain ⟨-, hlay⟩ := build_plan_ok_parts h
  have hbase := build_layout_rule_valid tone (normStripOpt discount)
    (build_copy_rule (pyStrip product) tone (normStripOpt discount)).headline
  rcases hlay with h1 | ⟨d, h1⟩
  · rw [h1]
    exact hbase
  · exact parse_layout_dict_valid hbase h1

theorem C6_layout_merge_stays_in_enums_witness :
    validBlock planW6.layout.headline ∧ validBlock planW6.layout.subcopy ∧
    validBlock planW6.layout.cta :=
  C6_layout_merge_stays_in_enums "커피" Tone.casual none none (some llmW6)
    planW6 rfl

/-! ## C5: discount emphasis extraction -/

theorem takeWhile_digits_append {d rest : List Char}
    (hd : ∀ c ∈ d, c.isDigit = true)
    (hrest : ∀ c, rest.head? = some c → c.isDigit = false) :
    (d ++ rest).takeWhile Char.isDigit = d := by
  induction d with
  | nil =>
    cases rest with
    | nil => rfl
    | cons c tl =>
      simp only [List.nil_append]
      rw [List.takeWhile_cons_of_neg]
      simp [hrest c rfl]
  | cons a as ih =>
    simp only [List.cons_append]
    rw [List.takeWhile_cons_of_pos (by simp [hd a (by simp)])]
    rw [ih (fun c hc => hd c (by simp [hc]))]

theorem matchPercentAt_digits_percent {d r : List Char} (hne : d ≠ [])
    (hd : ∀ c ∈ d, c.isDigit = true) :
    (matchPercentAt (d ++ '%' :: r)).isSome = true := by
  unfold matchPercentAt
  have htw : (d ++ '%' :: r).takeWhile Char.isDigit = d :=
    takeWhile_digits_append hd (by intro c hc; cases hc; decide)
  rw [htw, if_neg hne]
  have hdrop : (d ++ '%' :: r).drop d.length = '%' :: r := List.drop_left d _
  rw [hdrop]
  have hw : isWs '%' = false := by decide
  simp [hw]

theorem searchPercent_none_drop {cs : List Char}
    (h : searchPercent cs = none) :
    ∀ n, matchPercentAt (cs.drop n) = none := by
  induction cs with
  | nil =>
    intro n
    simp only [List.drop_nil]
    rfl
  | cons c tl ih =>
    unfold searchPercent at h
    rcases hma : matchPercentAt (c :: tl) with _ | m
    · rw [hma] at h
      intro n
      cases n with
      | zero => exact hma
      | succ k => exact ih h k
    · rw [hma] at h
      exact Option.noConfusion h

theorem searchPercent_isSome_of_digits_percent {cs d : List Char}
    (hne : d ≠ []) (hd : ∀ c ∈ d, c.isDigit = true)
    (hinf : (d ++ ['%']) <:+: cs) : (searchPercent cs).isSome = true := by
  obtain ⟨a, b, heq⟩ := hinf
  by_contra hcon
  have hnone : searchPercent cs = none := by
    cases hs : searchPercent cs
    · rfl
    · rw [hs] at hcon
      simp at hcon
  have h1 := searchPercent_none_drop hnone a.length
  have h2 : cs.drop a.length = d ++ '%' :: b := by
    rw [← heq, List.append_assoc]
    rw [List.drop_left a _]
    simp
  rw [h2] at h1
  have := matchPercentAt_digits_percent (r := b) hne hd
  rw [h1] at this
  exact Bool.noConfusion this

theorem isWs_eq_false_of_digit {c : Char} (h : c.isDigit = true) :
    isWs c = false := by
  by_contra hw
  rw [Bool.not_eq_false] at hw
  have h6 : ((((c = ' ' ∨ c = '\t') ∨ c = '\n') ∨ c = '\x0d') ∨ c = '\x0b') ∨
      c = '\x0c' := by simpa [isWs] using hw
  rcases h6 with ((((rfl | rfl) | rfl) | rfl) | rfl) | rfl <;> simp at h

/-- C5 (amended): for a non-empty product and any discount containing a
no-space numeric-percent substring `\d+%`, the plan's headline emphasis
is set with accent `#FF4D4D` and scale 1.2, and its text is the
*leftmost* match of the full regex `(\d+\s?%|\d+\s?퍼센트)` in the
headline with spaces removed — which is the textual-percent phrase, not
the numeric one, whenever such a phrase occurs earlier in the headline. -/
theorem C5_discount_emphasis (product : String) (tone : Tone)
    (discount : String) (hp : pyStrip product ≠ "") (d : List Char)
    (hne : d ≠ []) (hdig : ∀ c ∈ d, c.isDigit = true)
    (hinf : (d ++ ['%']) <:+: discount.data) :
    ∃ plan m,
      build_plan product tone (some discount) none none = .ok plan ∧
      searchPercent ("오늘만 " ++ pyStrip discount).data = some m ∧
      plan.layout.headline.emphasis =
        some ⟨⟨m.filter (fun c => c != ' ')⟩, "#FF4D4D", discountEmphScale⟩ := by
  have hws : ∀ c ∈ d ++ ['%'], isWs c = false := by
    intro c hc
    rcases List.mem_append.mp hc with hc | hc
    · exact isWs_eq_false_of_digit (hdig c hc)
    · have hc2 : c = '%' := by simpa using hc
      subst hc2
      decide
  have hsurv : (d ++ ['%']) <:+: stripList discount.data :=
    infix_stripList (by simp) hws hinf
  have hstrip_ne : pyStrip discount ≠ "" := by
    intro heq
    have hdata : stripList discount.data = [] := congrArg String.data heq
    rw [hdata, List.infix_nil] at hsurv
    simp at hsurv
  have hnorm : normStripOpt (some discount) = some (pyStrip discount) := by
    rw [show normStripOpt (some discount) =
      (if pyStrip discount = "" then none else some (pyStrip discount)) from rfl,
      if_neg hstrip_ne]
  have hheadline : (build_copy_rule (pyStrip product) tone
      (some (pyStrip discount))).headline = "오늘만 " ++ pyStrip discount := by
    cases tone <;> rfl
  have hinf2 : (d ++ ['%']) <:+: ("오늘만 " ++ pyStrip discount).data := by
    rw [String.data_append]
    exact infix_app_left _ hsurv
  have hsrch := searchPercent_isSome_of_digits_percent hne hdig hinf2
  obtain ⟨m, hm⟩ := Option.isSome_iff_exists.mp hsrch
  have hlr : (build_layout_rule tone (some (pyStrip discount))
      ("오늘만 " ++ pyStrip discount)).headline.emphasis =
      some ⟨⟨m.filter (fun c => c != ' ')⟩, "#FF4D4D", discountEmphScale⟩ := by
    unfold build_layout_rule extract_percent_or_number_phrase
    dsimp only
    rw [hm]
    rfl
  refine ⟨⟨build_copy_rule (pyStrip product) tone (normStripOpt (some discount)),
      build_background_prompt_rule (pyStrip product) tone (normStripOpt none),
      build_layout_rule tone (normStripOpt (some discount))
        (build_copy_rule (pyStrip product) tone
          (normStripOpt (some discount))).headline,
      ⟨none, none, none⟩⟩, m, ?_, hm, ?_⟩
  · unfold build_plan
    dsimp only
    rw [if_neg hp]
    rfl
  · show (build_layout_rule tone (normStripOpt (some discount))
      (build_copy_rule (pyStrip product) tone
        (normStripOpt (some discount))).headline).headline.emphasis = _
    rw [hnorm, hheadline]
    exact hlr

theorem C5_discount_emphasis_witness :
    ∃ plan m,
      build_plan "커피" Tone.casual (some "50%") none none = .ok plan ∧
      searchPercent ("오늘만 " ++ pyStrip "50%").data = some m ∧
      plan.layout.headline.emphasis =
        some ⟨⟨m.filter (fun c => c != ' ')⟩, "#FF4D4D", discountEmphScale⟩ :=
  C5_discount_emphasis "커피" Tone.casual "50%" (by decide) ['5', '0']
    (by decide) (by decide) (by decide)

set_option maxRecDepth 8000 in
/-- C5 counterexample: `discount = "5 퍼센트 50%"` contains the
numeric-percent substring `50%`, but the emphasis text becomes the
earlier textual-percent match `5퍼센트` (spaces removed), which is not a
`\d+%` substring of the headline (it contains no `%` at all). -/
theorem C5_counterexample :
    (build_plan "커피" Tone.casual (some "5 퍼센트 50%") none none).map
      (fun p => p.layout.headline.emphasis.map (·.text)) =
        .ok (some "5퍼센트") ∧
    isSubB "50%".data "5 퍼센트 50%".data = true ∧
    "5퍼센트" ≠ "50%" ∧ ¬ '%' ∈ "5퍼센트".data := by
  refine ⟨by rfl, by decide, by decide, by decide⟩

/-! ## C3: the fallback background gradient -/

theorem foldl_set_length {α : Type} (f : ℕ → α) (L : List ℕ) (acc : List α) :
    (L.foldl (fun r y => r.set y (f y)) acc).length = acc.length := by
  induction L generalizing acc with
  | nil => rfl
  | cons y L ih => simp [List.foldl_cons, ih]

theorem foldl_set_getElem {α : Type} (f : ℕ → α) (L : List ℕ) (acc : List α)
    (i : ℕ) :
    (L.foldl (fun r y => r.set y (f y)) acc)[i]? =
      if i ∈ L ∧ i < acc.length then some (f i) else acc[i]? := by
  induction L generalizing acc with
  | nil => simp
  | cons y L ih =>
    rw [List.foldl_cons, ih]
    by_cases h1 : i ∈ L ∧ i < acc.length
    · rw [if_pos (by simpa using h1), if_pos ⟨List.mem_cons_of_mem _ h1.1, h1.2⟩]
    · rw [if_neg (by simpa using h1)]
      by_cases h2 : i = y
      · subst h2
        by_cases h3 : i < acc.length
        · rw [if_pos ⟨List.mem_cons_self _ _, h3⟩]
          rw [List.getElem?_set_self']
          simp [h3]
        · rw [if_neg (by simp [h3])]
          rw [List.getElem?_set_self']
          have h4 : acc[i]? = none := by
            rw [List.getElem?_eq_none]
            omega
          simp [h4]
      · rw [List.getElem?_set_ne (by omega)]
        have : ¬(i ∈ y :: L ∧ i < acc.length) := by
          intro ⟨hm, hl⟩
          rcases List.mem_cons.mp hm with h5 | h5
          · exact h2 h5
          · exact h1 ⟨h5, hl⟩
        rw [if_neg this]

theorem paintRows_length (c1 c2 : RGB) (h : ℕ) :
    (paintRows c1 c2 h).length = h := by
  unfold paintRows
  rw [foldl_set_length]
  simp

theorem paintRows_getElem (c1 c2 : RGB) (h y : ℕ) (hy : y < h) :
    (paintRows c1 c2 h)[y]? = some (gradRow c1 c2 h y) := by
  unfold paintRows
  rw [foldl_set_getElem]
  simp [List.mem_range, hy]

/-- C3 (amended): with the fallback backend and a prompt passing the
safety check, generation succeeds and the output is the deterministic
function of the prompt, the size *and the RNG draw* (the order
`random.sample` picks for the bucket's two colors): every scanline is
the linear interpolation between the two ordered colors of the
keyword-selected tone bucket. -/
theorem C3_fallback_gradient_rows (swap : Bool) (prompt : String) (w h : ℕ)
    (hsafe : assert_prompt_safe prompt = none) :
    ∃ img, generate_background swap prompt ⟨.fallback, (w, h)⟩ = .ok img ∧
      img.width = w ∧ img.height = h ∧ img.rows.length = h ∧
      ∀ y, y < h → img.rows[y]? =
        some (gradRow (sampleOrder swap (baseColorsOf prompt)).1
          (sampleOrder swap (baseColorsOf prompt)).2 h y) := by
  refine ⟨generate_fallback_background swap prompt (w, h), ?_, rfl, rfl, ?_, ?_⟩
  · unfold generate_background
    rw [hsafe]
  · show (paintRows (sampleOrder swap (baseColorsOf prompt)).1
      (sampleOrder swap (baseColorsOf prompt)).2 h).length = h
    exact paintRows_length _ _ _
  · intro y hy
    show (paintRows (sampleOrder swap (baseColorsOf prompt)).1
      (sampleOrder swap (baseColorsOf prompt)).2 h)[y]? = _
    exact paintRows_getElem _ _ _ _ hy

theorem C3_fallback_gradient_rows_witness :
    assert_prompt_safe "plain gradient" = none ∧
    (∃ img, generate_background false "plain gradient"
        ⟨.fallback, (2, 3)⟩ = .ok img ∧
      img.width = 2 ∧ img.height = 3 ∧ img.rows.length = 3 ∧
      ∀ y, y < 3 → img.rows[y]? =
        some (gradRow (sampleOrder false (baseColorsOf "plain gradient")).1
          (sampleOrder false (baseColorsOf "plain gradient")).2 3 y)) :=
  ⟨by decide, C3_fallback_gradient_rows false "plain gradient" 2 3 (by decide)⟩

/-- C3 counterexample: `generate_background` is *not* a function of
`(prompt, config)` alone — the two possible `random.sample` orders give
pixel-different canvases for the same inputs. -/
theorem C3_counterexample :
    (generate_background true "luxury mood" ⟨.fallback, (1, 2)⟩).toOption ≠
      (generate_background false "luxury mood" ⟨.fallback, (1, 2)⟩).toOption := by
  decide

/-! ## C7 and C10: the upscale clamp -/

theorem div_le_of_cross {a b c d : ℕ} (hd : 0 < d) (h : a * c ≤ b * d) :
    a * c / d ≤ b :=
  calc a * c / d ≤ b * d / d := Nat.div_le_div_right h
  _ = b := Nat.mul_div_cancel b hd

theorem mul_div_self_eq {n k : ℕ} (hn : 0 < n) : n * k / n = k := by
  rw [Nat.mul_comm]
  exact Nat.mul_div_cancel k hn

theorem C7_upscale_respects_clamp (w h sc : ℕ) :
    (∀ mw mh ow oh, 0 < mw → 0 < mh →
      upscale_image w h ⟨.fallback, sc, some (mw, mh)⟩ = some (ow, oh) →
      ow ≤ mw ∧ oh ≤ mh ∧
      (∃ sn sd, 0 < sd ∧ sn ≤ sd ∧ ow = w * sc * sn / sd ∧
        oh = h * sc * sn / sd) ∧
      (w * sc ≤ mw → h * sc ≤ mh → ow = w * sc ∧ oh = h * sc)) ∧
    upscale_image w h ⟨.fallback, sc, none⟩ = some (w * sc, h * sc) := by
  constructor
  · intro mw mh ow oh hmw hmh hok
    unfold upscale_image upscale_fallback at hok
    dsimp only at hok
    by_cases hnw : w * sc = 0
    · rw [if_pos ⟨by omega, hnw⟩] at hok
      exact Option.noConfusion hok
    rw [if_neg (by omega)] at hok
    by_cases hnh : h * sc = 0
    · rw [if_pos ⟨by omega, hnh⟩] at hok
      exact Option.noConfusion hok
    rw [if_neg (by omega)] at hok
    rw [if_neg (by omega : ¬ mw = 0), if_neg (by omega : ¬ mh = 0)] at hok
    unfold minFrac at hok
    dsimp only at hok
    by_cases hcmp : mw * (h * sc) ≤ mh * (w * sc)
    · rw [if_pos hcmp] at hok
      dsimp only at hok
      by_cases hout : mw * 1 ≤ 1 * (w * sc)
      · rw [if_pos hout] at hok
        injection hok with hok
        injection hok with how hoh
        subst how hoh
        refine ⟨?_, ?_, ⟨mw, w * sc, by omega, by omega, rfl, rfl⟩, ?_⟩
        · rw [Nat.mul_comm (w * sc) mw, Nat.mul_div_cancel mw (by omega)]
        · exact div_le_of_cross (by omega)
            (by rw [Nat.mul_comm (h * sc) mw]; exact hcmp)
        · intro hw hh
          have heq : mw = w * sc := by omega
          constructor
          · rw [heq, mul_div_self_eq (by omega : 0 < w * sc)]
          · rw [heq, Nat.mul_div_cancel _ (by omega : 0 < w * sc)]
      · rw [if_neg hout] at hok
        injection hok with hok
        injection hok with how hoh
        subst how hoh
        have hlt : w * sc < mw := by omega
        refine ⟨by simp; omega, ?_, ⟨1, 1, by omega, by omega, rfl, rfl⟩, ?_⟩
        · simp only [Nat.mul_one, Nat.div_one]
          by_cases hb : h * sc ≤ mh
          · exact hb
          · exfalso
            push_neg at hb
            have h1 : (w * sc + 1) * (mh + 1) ≤ mw * (h * sc) :=
              Nat.mul_le_mul (by omega) (by omega)
            nlinarith
        · intro hw hh
          simp
    · rw [if_neg hcmp] at hok
      dsimp only at hok
      push_neg at hcmp
      by_cases hout : mh * 1 ≤ 1 * (h * sc)
      · rw [if_pos hout] at hok
        dsimp only at hok
        injection hok with hok
        injection hok with how hoh
        subst how hoh
        refine ⟨?_, ?_, ⟨mh, h * sc, by omega, by omega, rfl, rfl⟩, ?_⟩
        · exact div_le_of_cross (by omega)
            (by rw [Nat.mul_comm (w * sc) mh]; omega)
        · rw [Nat.mul_comm (h * sc) mh, Nat.mul_div_cancel mh (by omega)]
        · intro hw hh
          have heq : mh = h * sc := by omega
          constructor
          · rw [heq, Nat.mul_div_cancel _ (by omega : 0 < h * sc)]
          · rw [heq, mul_div_self_eq (by omega : 0 < h * sc)]
      · rw [if_neg hout] at hok
        injection hok with hok
        injection hok with how hoh
        subst how hoh
        have hlt : h * sc < mh := by omega
        refine ⟨?_, by simp; omega, ⟨1, 1, by omega, by omega, rfl, rfl⟩, ?_⟩
        · simp only [Nat.mul_one, Nat.div_one]
          by_cases hb : w * sc ≤ mw
          · exact hb
          · exfalso
            push_neg at hb
            have h1 : (h * sc + 1) * (mw + 1) ≤ mh * (w * sc) :=
              Nat.mul_le_mul (by omega) (by omega)
            nlinarith
        · intro hw hh
          simp
  · unfold upscale_image upscale_fallback
    rfl

theorem C7_upscale_respects_clamp_witness :
    (0:ℕ) < 4 ∧ (0:ℕ) < 100 ∧
    upscale_image 3 2 ⟨.fallback, 2, some (4, 100)⟩ = some (4, 2) ∧
    (4 ≤ 4 ∧ 2 ≤ 100 ∧
      (∃ sn sd : ℕ, 0 < sd ∧ sn ≤ sd ∧ 4 = 3 * 2 * sn / sd ∧
        2 = 2 * 2 * sn / sd) ∧
      (3 * 2 ≤ 4 → 2 * 2 ≤ 100 → 4 = 3 * 2 ∧ 2 = 2 * 2)) :=
  ⟨by decide, by decide, by decide,
   (C7_upscale_respects_clamp 3 2 2).1 4 100 4 2 (by decide) (by decide)
     (by decide)⟩

/-- C10: a zero entry in `max_size` is falsy in Python, so that axis's
factor is `1.0` — the axis is unclamped, never clamped to a zero-sized
output; the output is reduced only by the other axis's uniform factor. -/
theorem C10_zero_clamp_means_no_limit (w h sc mw mh ow oh : ℕ) :
    (upscale_image w h ⟨.fallback, sc, some (0, mh)⟩ = some (ow, oh) →
      (h * sc ≤ mh ∨ mh = 0 → ow = w * sc ∧ oh = h * sc) ∧
      (0 < mh → mh < h * sc →
        ow = w * sc * mh / (h * sc) ∧ oh = h * sc * mh / (h * sc))) ∧
    (upscale_image w h ⟨.fallback, sc, some (mw, 0)⟩ = some (ow, oh) →
      (w * sc ≤ mw ∨ mw = 0 → ow = w * sc ∧ oh = h * sc) ∧
      (0 < mw → mw < w * sc →
        ow = w * sc * mw / (w * sc) ∧ oh = h * sc * mw / (w * sc))) := by
  constructor
  · intro hok
    unfold upscale_image upscale_fallback minFrac at hok
    dsimp only at hok
    simp only [reduceIte] at hok
    rw [if_neg (show ¬((0:ℕ) ≠ 0 ∧ w * sc = 0) by simp)] at hok
    by_cases hmh0 : mh = 0
    · subst hmh0
      simp only [reduceIte] at hok
      simp at hok
      exact ⟨fun _ => by omega, fun hpos _ => absurd hpos (by decide)⟩
    · by_cases hnh : h * sc = 0
      · rw [if_pos ⟨hmh0, hnh⟩] at hok
        exact Option.noConfusion hok
      · rw [if_neg (by omega : ¬(mh ≠ 0 ∧ h * sc = 0)), if_neg hmh0] at hok
        dsimp only at hok
        by_cases hc : 1 * (h * sc) ≤ mh * 1
        · rw [if_pos hc] at hok
          simp only [reduceIte] at hok
          simp at hok
          exact ⟨fun _ => by omega, fun _ hlt => absurd hlt (by omega)⟩
        · rw [if_neg hc] at hok
          dsimp only at hok
          rw [if_pos (by omega)] at hok
          dsimp only at hok
          injection hok with hok
          injection hok with how hoh
          exact ⟨fun hor => absurd hor (by omega),
            fun _ _ => ⟨how.symm, hoh.symm⟩⟩
  · intro hok
    unfold upscale_image upscale_fallback minFrac at hok
    dsimp only at hok
    simp only [reduceIte] at hok
    rw [if_neg (show ¬((0:ℕ) ≠ 0 ∧ h * sc = 0) by simp)] at hok
    by_cases hmw0 : mw = 0
    · subst hmw0
      simp only [reduceIte] at hok
      simp at hok
      exact ⟨fun _ => by omega, fun hpos _ => absurd hpos (by decide)⟩
    · by_cases hnw : w * sc = 0
      · rw [if_pos ⟨hmw0, hnw⟩] at hok
        exact Option.noConfusion hok
      · rw [if_neg (by omega : ¬(mw ≠ 0 ∧ w * sc = 0)), if_neg hmw0] at hok
        dsimp only at hok
        by_cases hc : mw * 1 ≤ 1 * (w * sc)
        · rw [if_pos hc] at hok
          dsimp only at hok
          rw [if_pos hc] at hok
          dsimp only at hok
          injection hok with hok
          injection hok with how hoh
          by_cases heq : mw = w * sc
          · refine ⟨fun _ => ?_, fun _ hlt => absurd hlt (by omega)⟩
            constructor
            · rw [← how, heq, mul_div_self_eq (by omega : 0 < w * sc)]
            · rw [← hoh, heq, Nat.mul_div_cancel _ (by omega : 0 < w * sc)]
          · exact ⟨fun hor => absurd hor (by omega),
              fun _ hlt => ⟨how.symm, hoh.symm⟩⟩
        · rw [if_neg hc] at hok
          simp only [reduceIte] at hok
          simp at hok
          exact ⟨fun _ => by omega, fun _ hlt => absurd hlt (by omega)⟩

theorem C10_zero_clamp_means_no_limit_witness :
    upscale_image 2 3 ⟨.fallback, 2, some (0, 4)⟩ = some (2, 4) ∧
    ((3 * 2 ≤ 4 ∨ 4 = 0 → (2 : ℕ) = 2 * 2 ∧ (4 : ℕ) = 3 * 2) ∧
     (0 < 4 → 4 < 3 * 2 →
       (2 : ℕ) = 2 * 2 * 4 / (3 * 2) ∧ (4 : ℕ) = 3 * 2 * 4 / (3 * 2))) :=
  ⟨by decide, (C10_zero_clamp_means_no_limit 2 3 2 0 4 2 4).1 (by decide)⟩

/-! ## C9: missing emphasis target falls back to the uniform draw -/

/-- C9: if a block's emphasis target is empty or not a substring of the
block's text, the renderer emits exactly the draw commands of the same
block with emphasis removed — pixel-identical output, no error. -/
theorem C9_emphasis_fallback_identical (M : String → ℤ → String → ℚ)
    (canvas_size : ℕ × ℕ) (text : String) (spec : TextBlockLayout)
    (platform : String) (em : EmphasisSpec)
    (hem : spec.emphasis = some em)
    (hmiss : em.text = "" ∨ isSubB em.text.data text.data = false) :
    draw_text_block M canvas_size text spec platform =
      draw_text_block M canvas_size text
        { spec with emphasis := none } platform := by
  unfold draw_text_block
  by_cases htext : text = ""
  · rw [if_pos htext, if_pos htext]
  · rw [if_neg htext, if_neg htext]
    unfold resolve_text_layout
    dsimp only
    rcases hfp : resolve_font_px spec.font_size platform with _ | px
    · simp [bind, Option.bind, hfp]
    · rcases hhex : hex_to_rgba spec.color_hex with _ | color
      · simp [bind, Option.bind, hfp, hhex]
      · simp only [bind, Option.bind, hfp, hhex]
        rw [hem]
        dsimp only
        unfold draw_text_with_emphasis
        rw [if_pos]
        rcases hmiss with hmiss | hmiss
        · simp [hmiss]
        · simp [hmiss]

theorem C9_emphasis_fallback_identical_witness :
    (TextBlockLayout.mk "upper_center" "bold" "xl" "#FFFFFF"
        (some ⟨"50%", "#FF4D4D", defaultEmphScale⟩)).emphasis =
      some ⟨"50%", "#FF4D4D", defaultEmphScale⟩ ∧
    (("50%" : String) = "" ∨ isSubB "50%".data "안녕하세요".data = false) ∧
    draw_text_block (fun _ _ _ => (0 : ℚ)) (1080, 1080) "안녕하세요"
        (TextBlockLayout.mk "upper_center" "bold" "xl" "#FFFFFF"
          (some ⟨"50%", "#FF4D4D", defaultEmphScale⟩)) "instagram" =
      draw_text_block (fun _ _ _ => (0 : ℚ)) (1080, 1080) "안녕하세요"
        (TextBlockLayout.mk "upper_center" "bold" "xl" "#FFFFFF" none)
        "instagram" :=
  ⟨rfl, Or.inr (by decide),
   C9_emphasis_fallback_identical (fun _ _ _ => (0 : ℚ)) (1080, 1080)
     "안녕하세요"
     (TextBlockLayout.mk "upper_center" "bold" "xl" "#FFFFFF"
       (some ⟨"50%", "#FF4D4D", defaultEmphScale⟩)) "instagram"
     ⟨"50%", "#FF4D4D", defaultEmphScale⟩ rfl (Or.inr (by decide))⟩
